import Mathlib

set_option maxRecDepth 4000

/-!
Verification development for the pythonUnits repository.

The repository contains two parallel implementations of a unit-algebra and
quantity-conversion engine:

* `src/unitkit/main.py` (the newer module, classes `Units` and `Value`), and
* `src/units/main.py` (the older module, same class names).

This file gives a shallow embedding of both.  Numeric values are embedded as
rationals (`ℚ`); Python exceptions are embedded with `Except PyErr`.  The
atomic-unit class `BaseUnit` and the parser live in files that are not part
of `src/` (`base.py`, `__baseUnits__.py`, `parse.py`, `conversions.py`); the
definitions that depend on them are modelled from the spec and are marked as
such in their doc comments.
-/

set_option autoImplicit false

namespace UnitAlg

/-- Modelled from the spec: the class `BaseUnit` (spec §4.1 "AtomicUnit") is
defined in `base.py` / `__baseUnits__.py`, which are not under `src/`.  One
named, dimensioned factor with a rational exponent.  The `magnitude` field is
not stored here; where the code calls `u.mod()` the embedding takes an
explicit function `mods : BaseUnit → ℚ` as a parameter, so every theorem
holds for an arbitrary magnitude table. -/
structure BaseUnit where
  symbol : String
  dimension : String
  exp : ℚ
deriving DecidableEq, Repr

instance : Inhabited BaseUnit := ⟨⟨"", "", 0⟩⟩

/-- The composite-unit container: `Units.base_units` in both
`src/unitkit/main.py` and `src/units/main.py`.  The cosmetic `string` field
of the Python class is display-only and is not modelled. -/
structure Units where
  base_units : List BaseUnit
deriving DecidableEq, Repr

/-- Sum of the exponents of all atoms of dimension `d` in the list:
the per-dimension accumulation performed by `can_convert`
(`src/units/main.py` lines 271-277). -/
def dimExpSum (l : List BaseUnit) (d : String) : ℚ :=
  ((l.filter (fun u => u.dimension == d)).map (fun u => u.exp)).sum

/-- From `src/units/main.py` lines 271-277 (`can_convert`); the unitkit
module imports the same check from its `conversions` module (absent from
`src/`, spec §4.3 step 4: "convertible iff every dimension's summed exponent
is exactly zero").  A unit expression is convertible to unitless iff every
dimension's summed exponent is zero. -/
def can_convert (A : Units) : Bool :=
  A.base_units.all (fun u => decide (dimExpSum A.base_units u.dimension = 0))

/-- Membership test `u in lst` for base units.  Python's `BaseUnit.__eq__`
compares symbols (spec §3: two atomic units are "the same factor" iff they
share `symbol`). -/
def bu_in (u : BaseUnit) (l : List BaseUnit) : Bool :=
  l.any (fun x => x.symbol == u.symbol)

/-- The expression `[x for x in other.base_units if x == u][0]` from
`Units.__mul__`: the first base unit of the list sharing `u`'s symbol. -/
def firstMatch (u : BaseUnit) (l : List BaseUnit) : Option BaseUnit :=
  l.find? (fun x => x.symbol == u.symbol)

/-- From `Units.__mul__` (identical in `src/unitkit/main.py` lines 38-60 and
`src/units/main.py` lines 37-59), the `Units * Units` branch: merge the
exponents of same-symbol atoms (dropping a merged atom whose exponent sums
to zero — `BaseUnit.__mul__` returns a falsy sentinel then), then append the
atoms of `B` whose symbols do not occur in `A`. -/
def Units.mul (A B : Units) : Units :=
  ⟨(A.base_units.filterMap (fun u =>
      match firstMatch u B.base_units with
      | some same =>
        if u.exp + same.exp = 0 then none else some { u with exp := u.exp + same.exp }
      | none => some u)) ++
    B.base_units.filter (fun u => !(bu_in u A.base_units))⟩

/-- From `Units.invert` (both files): a deep copy with every exponent
multiplied by `-1` (`BaseUnit.update_exp(-1)` multiplies the exponent in
place on the copy). -/
def Units.invert (A : Units) : Units :=
  ⟨A.base_units.map (fun u => { u with exp := u.exp * (-1) })⟩

/-- From `Units.__truediv__` (both files): `self * other.invert()`. -/
def Units.div (A B : Units) : Units :=
  Units.mul A (Units.invert B)

/-- From `src/unitkit/main.py` lines 85-89 (`Units.update_exp`): a deep copy
whose every exponent is multiplied by `exp`.  No zero-exponent stripping
happens here, because the copy bypasses the `Units` constructor. -/
def Units.update_exp (A : Units) (k : ℚ) : Units :=
  ⟨A.base_units.map (fun u => { u with exp := u.exp * k })⟩

/-- From `Units.is_unitless` (both files): no base units. -/
def Units.is_unitless (A : Units) : Bool :=
  A.base_units.isEmpty

/-- The zero-exponent stripping loop at the end of `Units.__init__` (both
files): remove every base unit whose exponent is `0`. -/
def stripZeros (l : List BaseUnit) : List BaseUnit :=
  l.filter (fun u => !(decide (u.exp = 0)))

/-- The inner scan of `_combine_unit_list` (`src/unitkit/main.py` lines
325-346): walk the remaining list front to back, merging every atom whose
symbol matches `c` into `c`; when a merge cancels exactly (`current is
None`) stop at once, leaving the rest of the list untouched.  Returns the
merged atom (or `none` if it cancelled) and the remaining list after the
pops. -/
def mergeSym : BaseUnit → List BaseUnit → Option BaseUnit × List BaseUnit
  | c, [] => (some c, [])
  | c, r :: rs =>
    if r.symbol == c.symbol then
      if c.exp + r.exp = 0 then (none, rs)
      else mergeSym { c with exp := c.exp + r.exp } rs
    else
      let p := mergeSym c rs
      (p.1, r :: p.2)

theorem mergeSym_length (c : BaseUnit) (l : List BaseUnit) :
    (mergeSym c l).2.length ≤ l.length := by
  induction l generalizing c with
  | nil => simp [mergeSym]
  | cons r rs ih =>
    simp only [mergeSym]
    split
    · split
      · simp
      · exact Nat.le_trans (ih _) (Nat.le_succ _)
    · simpa using ih c

/-- The outer loop of `_combine_unit_list`: repeatedly pop the *last*
element of the remaining list, merge every same-symbol atom into it, and
append the merged atom to the accumulator when it is truthy (nonzero
exponent). -/
def combineAux (remaining acc : List BaseUnit) : List BaseUnit :=
  match h : remaining.getLast? with
  | none => acc
  | some current =>
    let rest := remaining.dropLast
    let p := mergeSym current rest
    let acc2 :=
      match p.1 with
      | some c => if c.exp = 0 then acc else acc ++ [c]
      | none => acc
    combineAux p.2 acc2
termination_by remaining.length
decreasing_by
  have h1 : remaining ≠ [] := by
    intro hnil
    rw [hnil] at h
    simp [List.getLast?] at h
  have h2 : (mergeSym current remaining.dropLast).2.length ≤ remaining.dropLast.length :=
    mergeSym_length _ _
  have h3 : remaining.dropLast.length = remaining.length - 1 := by
    simp [List.length_dropLast]
  have h4 : 0 < remaining.length := List.length_pos.mpr h1
  omega

/-- The `Units` constructor of `src/unitkit/main.py` (lines 10-26) on the
`parse=False` path with a flat list of base units: `_combine_unit_list`
(which pops from the end, hence reverses the order of distinct symbols)
followed by the zero-exponent stripping loop. -/
def mkKit (l : List BaseUnit) : Units :=
  ⟨stripZeros (combineAux l [])⟩

/-- The `Units` constructor of `src/units/main.py` (lines 8-23) on the
`parse=False` path with a flat list of base units: no merging, only the
zero-exponent stripping loop. -/
def mkOld (l : List BaseUnit) : Units :=
  ⟨stripZeros l⟩

/-- Symbol-to-exponent mapping of a unit expression: the total exponent
carried by symbol `s`. -/
def expOf (A : Units) (s : String) : ℚ :=
  ((A.base_units.filter (fun u => u.symbol == s)).map (fun u => u.exp)).sum

/-- Invariant of spec §3: no atomic unit with exponent `0` is retained. -/
def NoZeroExp (A : Units) : Prop :=
  ∀ u ∈ A.base_units, u.exp ≠ 0

instance (A : Units) : Decidable (NoZeroExp A) := by
  unfold NoZeroExp
  infer_instance

/-! ### Significant figures and Python numbers -/

/-- Python's `lstrip(c)`: drop leading occurrences of `c`. -/
def stripLeft (c : Char) (l : List Char) : List Char :=
  l.dropWhile (fun x => x == c)

/-- Python's `strip(c)` minus `lstrip(c)`: drop trailing occurrences of `c`. -/
def stripRight (c : Char) (l : List Char) : List Char :=
  (stripLeft c l.reverse).reverse

/-- From `count_sigfigs` (`src/unitkit/main.py` lines 359-364 and
`src/units/main.py` lines 290-295), operating on the decimal string
representation of the number: strip a leading sign, keep the part before any
exponent marker `e`, split at the decimal point; with a fractional part the
count is the digits of integer-plus-fraction after removing leading zeros,
otherwise the digits of the integer part after removing zeros on both
sides. -/
def count_sigfigs (s : List Char) : Nat :=
  let s1 := (s.dropWhile (fun x => x == '-')).takeWhile (fun x => !(x == 'e'))
  let intPart := s1.takeWhile (fun x => !(x == '.'))
  let decPart := (s1.dropWhile (fun x => !(x == '.'))).drop 1
  if decPart.isEmpty then (stripRight '0' (stripLeft '0' intPart)).length
  else (stripLeft '0' (intPart ++ decPart)).length

/-- A Python numeric literal as it reaches the `Value` layer: its rational
value together with the character list of its `str(...)` form (Python floats
have a canonical shortest repr; concrete instances in this file pair each
rational with the repr Python prints for it). -/
structure PyNum where
  val : ℚ
  pyStr : List Char

/-- The Python exceptions raised by the code under verification. -/
inductive PyErr where
  | missingMW : PyErr
  | zeroDivision : PyErr
  | cantConvert : Units → Units → PyErr
deriving DecidableEq, Repr

deriving instance DecidableEq for Except

/-- The `Value` class of both files (`value`/`num`, `units`, `sigfigs`). -/
structure Value where
  value : ℚ
  units : Units
  sigfigs : Nat
deriving DecidableEq, Repr

/-- The empty unit expression (Python `Units(None)` / `Units("")`): the
parser is out of scope (spec §6) and an empty/absent unit string yields a
unit expression with no atomic units (spec §3: "A unitless Quantity has an
empty UnitExpression"). -/
def unitless : Units := ⟨[]⟩

/-- Modelled from the spec: `Units("g/mol")`, built by the out-of-scope
parser (spec §6); per spec §4.3 step 5 it is the "substance-per-mass"
bridging unit, a mass atom over a substance atom. -/
def gPerMol : Units := ⟨[⟨"g", "mass", 1⟩, ⟨"mol", "substance", -1⟩]⟩

/-! ### Temperature (affine) conversions

The functions `is_temperature_conversion` and `get_temperature_converter`
live in unitkit's `conversions` module, which is not under `src/`. -/

/-- Modelled from the spec: the affine transform for a
(source-symbol, target-symbol) pair of temperature scales (spec §4.3 step 1
and glossary; spec §8: `Quantity(0, "°C").to("°F")` yields `32`). Identical
scales transform identically. -/
def tempConvert (s t : String) (v : ℚ) : ℚ :=
  if s = t then v
  else if s = "°C" ∧ t = "°F" then v * 9 / 5 + 32
  else if s = "°F" ∧ t = "°C" then (v - 32) * 5 / 9
  else if s = "°C" ∧ t = "K" then v + 27315 / 100
  else if s = "K" ∧ t = "°C" then v - 27315 / 100
  else if s = "°F" ∧ t = "K" then (v - 32) * 5 / 9 + 27315 / 100
  else if s = "K" ∧ t = "°F" then (v - 27315 / 100) * 9 / 5 + 32
  else v

/-- Modelled from the spec: `conversions.is_temperature_conversion(S, T)`
(spec §4.3 step 1) — both expressions consist of a single first-power atom
of the temperature dimension (a known affine family). -/
def is_temperature_conversion (S T : Units) : Bool :=
  match S.base_units, T.base_units with
  | [a], [b] =>
    a.dimension == "temperature" && b.dimension == "temperature" &&
      decide (a.exp = 1) && decide (b.exp = 1)
  | _, _ => false

/-! ### Conversion-factor resolution -/

/-- `Value.__mul__` between two `Value` objects (both files): multiply the
numbers, multiply the units, take the minimum of the sigfig counts. -/
def Value.mulVV (a b : Value) : Value :=
  ⟨a.value * b.value, Units.mul a.units b.units, min a.sigfigs b.sigfigs⟩

/-- From `build_conversion_factor` (`src/units/main.py` lines 280-287;
unitkit imports the same function from its absent `conversions` module,
spec §4.3 steps 4-5): start from `Value(1, None)`; when a molecular weight
is needed, divide the converter units by its units and multiply it into the
factor; then multiply in `Value(u.mod(), u)` for every remaining atom.  The
magnitude table is the parameter `mods`; the sigfig count of the
intermediate factors is immaterial (the caller overwrites it) and is
embedded as `1`. -/
def build_conversion_factor (converter_units : Units) (mw : Option Value)
    (needs_mw : Bool) (mods : BaseUnit → ℚ) : Value :=
  let start : Value := ⟨1, unitless, 1⟩
  let p : Units × Value :=
    match needs_mw, mw with
    | true, some m => (Units.div converter_units m.units, Value.mulVV start m)
    | _, _ => (converter_units, start)
  p.1.base_units.foldl (fun f u => Value.mulVV f ⟨mods u, ⟨[u]⟩, 1⟩) p.2

/-- The shared bridging logic of `Value.convert_units` (lines 288-301 of
`src/unitkit/main.py`, lines 235-248 of `src/units/main.py`): decide whether
a molecular weight is needed and in which orientation, raising when it is
needed but absent, and raising `cantConvert` (naming source and target
units) when no bridge helps.  `1 / mw` goes through `Value.__rtruediv__`,
which divides by `mw`'s numeric value — a Python `ZeroDivisionError` when
that value is zero. -/
def resolve_bridge (converter_units src tgt : Units) (mw : Option Value) :
    Except PyErr (Option Value × Bool) :=
  if can_convert converter_units then .ok (mw, false)
  else if can_convert (Units.mul converter_units gPerMol) then
    match mw with
    | none => .error PyErr.missingMW
    | some m =>
      if m.value = 0 then .error PyErr.zeroDivision
      else .ok (some ⟨1 / m.value, Units.invert m.units, m.sigfigs⟩, true)
  else if can_convert (Units.div converter_units gPerMol) then
    match mw with
    | none => .error PyErr.missingMW
    | some m => .ok (some m, true)
  else .error (PyErr.cantConvert src tgt)

/-- The non-temperature path of unitkit's `Value.convert_units`
(`src/unitkit/main.py` lines 283-307): compute `ratio = new_units / units`;
if it is unitless return the value re-tagged with the *new* units; otherwise
resolve bridging, multiply by the conversion factor, and re-tag the result
with the new units and the original sigfig count. -/
def convert_units_kit_main (self : Value) (new_units : Units) (mw : Option Value)
    (mods : BaseUnit → ℚ) : Except PyErr Value :=
  let converter_units := Units.div new_units self.units
  if converter_units.is_unitless then .ok ⟨self.value, new_units, self.sigfigs⟩
  else
    match resolve_bridge converter_units self.units new_units mw with
    | .error e => .error e
    | .ok (mwv, needs) =>
      let factor := build_conversion_factor converter_units mwv needs mods
      let pre := Value.mulVV self factor
      .ok ⟨pre.value, new_units, self.sigfigs⟩

/-- unitkit's `Value.convert_units` (`src/unitkit/main.py` lines 273-307):
first the temperature check (lines 277-281, via the spec-modelled
`conversions` helpers), applying the affine transform for the symbol pair
and bypassing the multiplicative computation; otherwise the main path. -/
def convert_units_kit (self : Value) (new_units : Units) (mw : Option Value)
    (mods : BaseUnit → ℚ) : Except PyErr Value :=
  match self.units.base_units, new_units.base_units with
  | [a], [b] =>
    if a.dimension == "temperature" && b.dimension == "temperature" &&
        decide (a.exp = 1) && decide (b.exp = 1) then
      .ok ⟨tempConvert a.symbol b.symbol self.value, new_units, self.sigfigs⟩
    else convert_units_kit_main self new_units mw mods
  | _, _ => convert_units_kit_main self new_units mw mods

/-- The older module's `Value.convert_units` (`src/units/main.py` lines
226-253): no temperature branch; when the ratio is unitless the value is
returned with the *original* units (line 233); otherwise the factor is
multiplied in and neither the units (which stay `self.units * factor.units`)
nor anything else is re-tagged — only the sigfig count is restored. -/
def convert_units_old (self : Value) (new_units : Units) (mw : Option Value)
    (mods : BaseUnit → ℚ) : Except PyErr Value :=
  let converter_units := Units.div new_units self.units
  if converter_units.is_unitless then .ok ⟨self.value, self.units, self.sigfigs⟩
  else
    match resolve_bridge converter_units self.units new_units mw with
    | .error e => .error e
    | .ok (mwv, needs) =>
      let factor := build_conversion_factor converter_units mwv needs mods
      let pre := Value.mulVV self factor
      .ok ⟨pre.value, pre.units, self.sigfigs⟩

/-! ### Quantity arithmetic (unitkit `Value`) -/

/-- `Value.__add__` between two `Value` objects (`src/unitkit/main.py` lines
206-210): convert the right operand to the left operand's units (with no
molecular weight), add the numbers, keep the left units, take the minimum
sigfig count. -/
def Value.add (a b : Value) (mods : BaseUnit → ℚ) : Except PyErr Value :=
  match convert_units_kit b a.units none mods with
  | .error e => .error e
  | .ok b2 => .ok ⟨a.value + b2.value, a.units, min a.sigfigs b2.sigfigs⟩

/-- `Value.__sub__` between two `Value` objects (`src/unitkit/main.py` lines
216-220). -/
def Value.sub (a b : Value) (mods : BaseUnit → ℚ) : Except PyErr Value :=
  match convert_units_kit b a.units none mods with
  | .error e => .error e
  | .ok b2 => .ok ⟨a.value - b2.value, a.units, min a.sigfigs b2.sigfigs⟩

/-- `Value.__truediv__` between two `Value` objects (`src/unitkit/main.py`
lines 237-240); dividing by a `Value` whose number is zero is a Python
`ZeroDivisionError`. -/
def Value.divVV (a b : Value) : Except PyErr Value :=
  if b.value = 0 then .error PyErr.zeroDivision
  else .ok ⟨a.value / b.value, Units.div a.units b.units, min a.sigfigs b.sigfigs⟩

/-- The bare-number branch of `Value.__mul__` (`src/unitkit/main.py` lines
227-229): multiply the number in, keeping the receiver's units and the
receiver's sigfig count. -/
def Value.mulNum (a : Value) (x : PyNum) : Value :=
  ⟨a.value * x.val, a.units, a.sigfigs⟩

/-- `Value.__rmul__` (`src/unitkit/main.py` lines 232-235): a bare number
times a `Value` delegates to `Value.__mul__`. -/
def Value.rmulNum (x : PyNum) (a : Value) : Value :=
  Value.mulNum a x

/-- `Value.__pow__` (`src/unitkit/main.py` lines 247-250) with an integer
exponent: raise the number to the power and multiply every unit exponent by
it via `Units.update_exp`. -/
def Value.pow (a : Value) (k : ℤ) : Value :=
  ⟨a.value ^ k, Units.update_exp a.units (k : ℚ), a.sigfigs⟩

/-- The `ensure_value_input` decorator (`src/unitkit/main.py` lines 147-160)
applied to a bare number: when the receiver's units are convertible to
unitless the number becomes a unitless `Value`; otherwise a warning is
emitted (the returned flag) and the number is assumed to carry the
receiver's units.  `Value(float(x), ...)` counts sigfigs from the string
form of the float. -/
def ensure_value_num (self : Value) (x : PyNum) : Value × Bool :=
  if can_convert self.units then (⟨x.val, unitless, count_sigfigs x.pyStr⟩, false)
  else (⟨x.val, self.units, count_sigfigs x.pyStr⟩, true)

/-- The decorated `Value.__add__` receiving a bare number: coerce via
`ensure_value_input`, then add.  The second component records whether the
units-assumption warning fired. -/
def Value.addNum (self : Value) (x : PyNum) (mods : BaseUnit → ℚ) :
    Except PyErr Value × Bool :=
  let c := ensure_value_num self x
  (Value.add self c.1 mods, c.2)

/-- `Value.equals` (`src/unitkit/main.py` lines 263-267, `src/units/main.py`
lines 216-220): convert the other operand to the receiver's units, then test
`abs((self.value - other.value) / self.value) < epsilon` with
`epsilon = 0.005`.  The division is by the receiver's raw value — a Python
`ZeroDivisionError` when it is zero. -/
def Value.equalsV (a b : Value) (mods : BaseUnit → ℚ) : Except PyErr Bool :=
  match convert_units_kit b a.units none mods with
  | .error e => .error e
  | .ok b2 =>
    if a.value = 0 then .error PyErr.zeroDivision
    else .ok (decide (|(a.value - b2.value) / a.value| < 5 / 1000))

/-! ### The `simplify` loop, with receiver aliasing

`Units.simplify` (`src/unitkit/main.py` lines 103-124, and the same loop
with an extra numeric modifier in `src/units/main.py` lines 93-117) begins
with `remaining = self.base_units.copy()` — a *shallow* copy, so the working
list shares its `BaseUnit` objects with the receiver, and the in-place
update `u.exp += other.exp` of the partial-cancellation branch is visible
through the receiver.  The embedding makes the aliasing explicit: atoms are
referred to by their index in the receiver's list, and the mutable exponent
of atom `i` lives in slot `i` of a store. -/

/-- The base unit at index `i` of the receiver, with its current (possibly
mutated) exponent read from the store. -/
def buAt (orig : List BaseUnit) (store : List ℚ) (i : Nat) : BaseUnit :=
  { orig.getD i default with exp := store.getD i 0 }

/-- The test `conversions.can_convert(u * remaining[i])` of the simplify
scan.  `BaseUnit.__mul__` on distinct symbols is not in `src/`; per spec
§4.2 the scan asks whether the two-atom product is fully convertible to
unitless (all dimension exponents cancel). -/
def cc2mul (u r : BaseUnit) : Bool :=
  can_convert ⟨[u, r]⟩

/-- The test `conversions.can_convert(u / remaining[i])` of the simplify
scan: the two-atom quotient is fully convertible to unitless. -/
def cc2div (u r : BaseUnit) : Bool :=
  can_convert ⟨[u, { r with exp := r.exp * (-1) }]⟩

/-- The inner `while i < len(remaining)` scan of `simplify`: walk the
remaining atoms; on a full cancellation pop the partner and stop with the
`canceled` flag set; on a partial cancellation pop the partner, add its
exponent into the head atom's store slot, and keep scanning from the same
position; otherwise advance.  Returns the remaining indices after the pops,
the store, and the `canceled` flag. -/
def scanSim (orig : List BaseUnit) (i : Nat) (passed rem : List Nat)
    (store : List ℚ) : List Nat × List ℚ × Bool :=
  match rem with
  | [] => (passed, store, false)
  | j :: rs =>
    let u := buAt orig store i
    let r := buAt orig store j
    if cc2mul u r then (passed ++ rs, store, true)
    else if cc2div u r then scanSim orig i passed rs (store.set i (u.exp + r.exp))
    else scanSim orig i (passed ++ [j]) rs store

theorem scanSim_length (orig : List BaseUnit) (i : Nat) (passed rem : List Nat)
    (store : List ℚ) :
    (scanSim orig i passed rem store).1.length ≤ passed.length + rem.length := by
  induction rem generalizing passed store with
  | nil => simp [scanSim]
  | cons j rs ih =>
    simp only [scanSim, List.length_cons]
    split
    · simp only [List.length_append]
      omega
    · split
      · exact Nat.le_trans (ih passed _) (by omega)
      · have h := ih (passed ++ [j]) store
        simp only [List.length_append, List.length_cons, List.length_nil] at h
        omega

theorem scanSim_remaining_lt (orig : List BaseUnit) (i : Nat) (rem : List Nat)
    (store : List ℚ) :
    (scanSim orig i [] rem store).1.length < rem.length + 1 := by
  have h := scanSim_length orig i [] rem store
  simp at h
  omega

/-- The outer `while len(remaining) > 0` loop of `simplify`: pop the head
atom, run the scan, and append the head's index to the keep list unless a
full cancellation discarded it. -/
def simplifySim (orig : List BaseUnit) (rem keep : List Nat) (store : List ℚ) :
    List Nat × List ℚ :=
  match rem with
  | [] => (keep, store)
  | i :: rs =>
    let res := scanSim orig i [] rs store
    simplifySim orig res.1 (if res.2.2 then keep else keep ++ [i]) res.2.1
termination_by rem.length
decreasing_by
  simp only [List.length_cons]
  exact scanSim_remaining_lt _ _ _ _

/-- Run the simplify loop of a unit expression: the working list starts as
the indices of all atoms and the store as their exponents.  Returns the kept
indices and the final store. -/
def simplifyRun (A : Units) : List Nat × List ℚ :=
  simplifySim A.base_units (List.range A.base_units.length) []
    (A.base_units.map (fun u => u.exp))

/-- unitkit's `Units.simplify` result: `Units(base_units=keep, parse=False)`
— the kept atoms (with their final exponents) passed through the unitkit
constructor. -/
def Units.simplify (A : Units) : Units :=
  mkKit ((simplifyRun A).1.map (buAt A.base_units (simplifyRun A).2))

/-- Overwrite the exponents of the receiver's atoms with the store contents:
what the receiver's `base_units` list looks like after `simplify` returns
(each object's exponent is its — possibly mutated — store slot). -/
def applyStore : List BaseUnit → List ℚ → List BaseUnit
  | [], _ => []
  | u :: us, [] => u :: us
  | u :: us, e :: es => { u with exp := e } :: applyStore us es

/-- The receiver's state after calling `Units.simplify` on it. -/
def receiverAfterSimplify (A : Units) : Units :=
  ⟨applyStore A.base_units (simplifyRun A).2⟩

/-- `Units.expand_all` (`src/unitkit/main.py` lines 126-141), parameterized
by the spec-modelled atomic operations that live in the absent `base.py`:
`toDimBase` is `BaseUnit.to_dimension_base` (base atom and numeric
modifier), `canExpandF` is `BaseUnit.can_expand`, and `fullExpandF` is
`BaseUnit.full_expand` (expanded expression and numeric modifier).  The
collected atoms are passed through the unitkit constructor. -/
def Units.expand_all (A : Units) (toDimBase : BaseUnit → BaseUnit × ℚ)
    (canExpandF : BaseUnit → Bool) (fullExpandF : BaseUnit → Units × ℚ) :
    Units × ℚ :=
  let res := A.base_units.foldl
    (fun (acc : List BaseUnit × ℚ) u =>
      let p := toDimBase u
      let m2 := acc.2 * p.2
      if canExpandF p.1 then
        let q := fullExpandF p.1
        (acc.1 ++ (q.1).base_units, m2 * q.2)
      else (acc.1 ++ [p.1], m2))
    ([], 1)
  (mkKit res.1, res.2)

/-! ### Concrete atoms used in witnesses and counterexamples

The dimension/symbol data mirrors the out-of-scope unit-definition table
(spec §6); the magnitudes, when a theorem needs them at all, are supplied
through a `mods` parameter, and the concrete instances use the constant
table `modOne`. -/

/-- The atom `m` (metre, length, first power). -/
def mA : BaseUnit := ⟨"m", "length", 1⟩

/-- The atom `s` (second, time, first power). -/
def sA : BaseUnit := ⟨"s", "time", 1⟩

/-- The atom `km` (kilometre, length, first power). -/
def kmA : BaseUnit := ⟨"km", "length", 1⟩

/-- The atom `in` squared (inch, length, second power). -/
def inA : BaseUnit := ⟨"in", "length", 2⟩

/-- The atom `ft` (foot, length, first power). -/
def ftA : BaseUnit := ⟨"ft", "length", 1⟩

/-- The atom `g` (gram, mass, first power). -/
def gA : BaseUnit := ⟨"g", "mass", 1⟩

/-- The atom `mol` (mole, substance, first power). -/
def molA : BaseUnit := ⟨"mol", "substance", 1⟩

/-- The atom `°C` (Celsius, temperature, first power). -/
def degC : BaseUnit := ⟨"°C", "temperature", 1⟩

/-- The atom `°F` (Fahrenheit, temperature, first power). -/
def degF : BaseUnit := ⟨"°F", "temperature", 1⟩

/-- A constant magnitude table for concrete instantiations (the claims
settled here never depend on the numeric magnitudes). -/
def modOne : BaseUnit → ℚ := fun _ => 1

/-! ### Helper lemmas -/

theorem convert_kit_temp (v : Value) (a b : BaseUnit) (T : Units) (mw : Option Value)
    (mods : BaseUnit → ℚ) (hv : v.units.base_units = [a]) (hT : T.base_units = [b])
    (ha : a.dimension = "temperature") (hb : b.dimension = "temperature")
    (hea : a.exp = 1) (heb : b.exp = 1) :
    convert_units_kit v T mw mods
      = .ok ⟨tempConvert a.symbol b.symbol v.value, T, v.sigfigs⟩ := by
  unfold convert_units_kit
  rw [hv, hT]
  simp [ha, hb, hea, heb]

theorem convert_kit_eq_main (v : Value) (T : Units) (mw : Option Value)
    (mods : BaseUnit → ℚ) (h : is_temperature_conversion v.units T = false) :
    convert_units_kit v T mw mods = convert_units_kit_main v T mw mods := by
  unfold convert_units_kit
  unfold is_temperature_conversion at h
  split
  next a b h1 h2 =>
    rw [h1, h2] at h
    simp only [] at h
    simp [h]
  next => rfl

theorem convert_main_ok_sigfigs (v : Value) (T : Units) (mw : Option Value)
    (mods : BaseUnit → ℚ) (r : Value)
    (h : convert_units_kit_main v T mw mods = .ok r) : r.sigfigs = v.sigfigs := by
  unfold convert_units_kit_main at h
  dsimp only at h
  split at h
  · injection h with h3
    rw [← h3]
  · split at h
    · exact absurd h (by simp)
    · injection h with h3
      rw [← h3]

theorem convert_kit_ok_sigfigs (v : Value) (T : Units) (mw : Option Value)
    (mods : BaseUnit → ℚ) (r : Value)
    (h : convert_units_kit v T mw mods = .ok r) : r.sigfigs = v.sigfigs := by
  unfold convert_units_kit at h
  split at h
  · split at h
    · injection h with h3
      rw [← h3]
    · exact convert_main_ok_sigfigs v T mw mods r h
  · exact convert_main_ok_sigfigs v T mw mods r h

theorem find?_symbol_self {l : List BaseUnit} {u : BaseUnit}
    (hp : List.Pairwise (fun x y => x.symbol ≠ y.symbol) l) (hu : u ∈ l) :
    List.find? (fun x => x.symbol == u.symbol) l = some u := by
  induction l with
  | nil => cases hu
  | cons a t ih =>
    rcases List.mem_cons.mp hu with rfl | hmem
    · simp
    · have hne : a.symbol ≠ u.symbol := (List.pairwise_cons.mp hp).1 u hmem
      rw [List.find?_cons_of_neg, ih (List.pairwise_cons.mp hp).2 hmem]
      simpa using hne

theorem div_self_empty {A : Units}
    (hp : List.Pairwise (fun x y => x.symbol ≠ y.symbol) A.base_units) :
    Units.div A A = (⟨[]⟩ : Units) := by
  unfold Units.div Units.mul Units.invert
  have h1 : A.base_units.filterMap (fun u =>
      match firstMatch u (A.base_units.map (fun w => { w with exp := w.exp * (-1) })) with
      | some same =>
        if u.exp + same.exp = 0 then none else some { u with exp := u.exp + same.exp }
      | none => some u) = [] := by
    rw [List.filterMap_eq_nil_iff]
    intro u hu
    have hfind : List.find? (fun x => x.symbol == u.symbol)
        (A.base_units.map (fun w => { w with exp := w.exp * (-1) }))
        = some { u with exp := u.exp * (-1) } := by
      rw [List.find?_map]
      simp only [Function.comp_def]
      rw [find?_symbol_self hp hu]
      rfl
    simp only [firstMatch, hfind]
    rw [if_pos]
    ring
  have h2 : (A.base_units.map (fun w => { w with exp := w.exp * (-1) })).filter
      (fun u => !(bu_in u A.base_units)) = [] := by
    rw [List.filter_eq_nil_iff]
    intro x hx
    rcases List.mem_map.mp hx with ⟨u, hu, rfl⟩
    simp only [bu_in, Bool.not_eq_true', Bool.not_eq_false]
    exact List.any_eq_true.mpr ⟨u, hu, by simp⟩
  rw [h1, h2]
  rfl

theorem convert_kit_self (w : Value) (mw : Option Value) (mods : BaseUnit → ℚ)
    (hp : List.Pairwise (fun x y => x.symbol ≠ y.symbol) w.units.base_units) :
    convert_units_kit w w.units mw mods = .ok ⟨w.value, w.units, w.sigfigs⟩ := by
  cases htemp : is_temperature_conversion w.units w.units with
  | false =>
    rw [convert_kit_eq_main _ _ _ _ htemp]
    unfold convert_units_kit_main
    rw [div_self_empty hp]
    simp [Units.is_unitless]
  | true =>
    unfold is_temperature_conversion at htemp
    split at htemp
    next a b h1 h2 =>
      have hab : a = b := by
        rw [h1] at h2
        injection h2
      simp only [Bool.and_eq_true, beq_iff_eq, decide_eq_true_eq] at htemp
      rw [convert_kit_temp w a b w.units mw mods h1 (hab ▸ h1) htemp.1.1.1 htemp.1.1.2
        htemp.1.2 htemp.2]
      rw [tempConvert, if_pos (by rw [hab])]
    next => cases htemp

/-- Every atom of a `mkKit`-constructed unit expression has a nonzero
exponent: the constructor ends with the zero-stripping loop. -/
theorem noZero_mkKit (l : List BaseUnit) : NoZeroExp (mkKit l) := by
  intro u hu
  have := List.of_mem_filter hu
  simpa using this

theorem is_unitless_false_of_can_convert_false {A : Units}
    (h : can_convert A = false) : A.is_unitless = false := by
  cases hul : A.is_unitless
  · rfl
  · exfalso
    unfold Units.is_unitless at hul
    rw [List.isEmpty_iff] at hul
    unfold can_convert at h
    rw [hul] at h
    simp at h

theorem resolve_bridge_mul_none (cu src tgt : Units)
    (hnc : can_convert cu = false)
    (hmu : can_convert (Units.mul cu gPerMol) = true) :
    resolve_bridge cu src tgt none = .error PyErr.missingMW := by
  unfold resolve_bridge
  rw [if_neg (by simp [hnc]), if_pos hmu]

theorem resolve_bridge_mul_some (cu src tgt : Units) (m : Value)
    (hnc : can_convert cu = false)
    (hmu : can_convert (Units.mul cu gPerMol) = true) :
    resolve_bridge cu src tgt (some m)
      = if m.value = 0 then .error PyErr.zeroDivision
        else .ok (some ⟨1 / m.value, Units.invert m.units, m.sigfigs⟩, true) := by
  unfold resolve_bridge
  rw [if_neg (by simp [hnc]), if_pos hmu]

theorem resolve_bridge_div_none (cu src tgt : Units)
    (hnc : can_convert cu = false)
    (hmu : can_convert (Units.mul cu gPerMol) = false)
    (hdv : can_convert (Units.div cu gPerMol) = true) :
    resolve_bridge cu src tgt none = .error PyErr.missingMW := by
  unfold resolve_bridge
  rw [if_neg (by simp [hnc]), if_neg (by simp [hmu]), if_pos hdv]

theorem resolve_bridge_div_some (cu src tgt : Units) (m : Value)
    (hnc : can_convert cu = false)
    (hmu : can_convert (Units.mul cu gPerMol) = false)
    (hdv : can_convert (Units.div cu gPerMol) = true) :
    resolve_bridge cu src tgt (some m) = .ok (some m, true) := by
  unfold resolve_bridge
  rw [if_neg (by simp [hnc]), if_neg (by simp [hmu]), if_pos hdv]

theorem resolve_bridge_incompatible (cu src tgt : Units) (mw : Option Value)
    (hnc : can_convert cu = false)
    (hmu : can_convert (Units.mul cu gPerMol) = false)
    (hdv : can_convert (Units.div cu gPerMol) = false) :
    resolve_bridge cu src tgt mw = .error (PyErr.cantConvert src tgt) := by
  unfold resolve_bridge
  rw [if_neg (by simp [hnc]), if_neg (by simp [hmu]), if_neg (by simp [hdv])]

theorem convert_main_error_iff (self : Value) (T : Units) (mw : Option Value)
    (mods : BaseUnit → ℚ) (e : PyErr)
    (hu : (Units.div T self.units).is_unitless = false) :
    convert_units_kit_main self T mw mods = .error e
      ↔ resolve_bridge (Units.div T self.units) self.units T mw = .error e := by
  unfold convert_units_kit_main
  dsimp only
  rw [hu]
  simp only [Bool.false_eq_true, if_false]
  cases hres : resolve_bridge (Units.div T self.units) self.units T mw with
  | error e2 => simp
  | ok p =>
    obtain ⟨mwv, needs⟩ := p
    simp

theorem convert_main_ok_of_resolve (self : Value) (T : Units) (mw : Option Value)
    (mods : BaseUnit → ℚ) (p : Option Value × Bool)
    (hu : (Units.div T self.units).is_unitless = false)
    (hres : resolve_bridge (Units.div T self.units) self.units T mw = .ok p) :
    ∃ v, convert_units_kit_main self T mw mods = .ok v := by
  unfold convert_units_kit_main
  dsimp only
  rw [hu]
  simp only [Bool.false_eq_true, if_false]
  rw [hres]
  obtain ⟨mwv, needs⟩ := p
  exact ⟨_, rfl⟩

/-! ### Claims -/

/-- C8: for every unit expression, `simplify` terminates: each iteration of
its outer loop strictly decreases the number of atomic units remaining to be
processed.  One outer iteration pops the head atom `u` (index `i`) and runs
the inner scan `scanSim`; the list of indices still remaining afterwards is
strictly shorter than the list `i :: rem` the iteration started from — also
in the partial-cancellation branch, which keeps `u` as the current atom but
pops its partner `r`. -/
theorem claim_C8_simplify_step_decreases (orig : List BaseUnit) (i : Nat)
    (rem : List Nat) (store : List ℚ) :
    (scanSim orig i [] rem store).1.length < (i :: rem).length := by
  have h := scanSim_length orig i [] rem store
  simp only [List.length_nil, Nat.zero_add] at h
  simp only [List.length_cons]
  omega

/-- C10: if the left quantity's numeric value is `0` and the right quantity
is convertible to its units, `Value.equals` raises a `ZeroDivisionError`
instead of returning a boolean: the relative-tolerance test divides the
difference by the left operand's raw value. -/
theorem claim_C10_equals_zero_division (a b : Value) (mods : BaseUnit → ℚ)
    (hzero : a.value = 0)
    (hconv : ∃ o, convert_units_kit b a.units none mods = .ok o) :
    Value.equalsV a b mods = .error PyErr.zeroDivision := by
  obtain ⟨o, ho⟩ := hconv
  unfold Value.equalsV
  rw [ho]
  simp [hzero]

theorem claim_C10_witness :
    Value.equalsV ⟨0, ⟨[mA]⟩, 1⟩ ⟨1, ⟨[mA]⟩, 1⟩ modOne = .error PyErr.zeroDivision :=
  claim_C10_equals_zero_division ⟨0, ⟨[mA]⟩, 1⟩ ⟨1, ⟨[mA]⟩, 1⟩ modOne rfl
    ⟨⟨1, ⟨[mA]⟩, 1⟩, by with_unfolding_all decide⟩

/-- C7, counterexample: raising `Value(2, "m")` to the power `0` (which
calls `Units.update_exp(0)`) retains the atom `m` with exponent `0` inside
the resulting unit expression, because `update_exp` bypasses the
constructor's zero-stripping loop. -/
theorem claim_C7_counterexample :
    (Value.pow ⟨2, ⟨[mA]⟩, 1⟩ 0).units = ⟨[⟨"m", "length", 0⟩]⟩
    ∧ ¬ NoZeroExp (Value.pow ⟨2, ⟨[mA]⟩, 1⟩ 0).units := by
  with_unfolding_all decide

/-- C7, amended: every unit expression produced by construction, multiply,
divide, invert, `update_exp` with a *nonzero* factor, `simplify`,
`expand_all`, or quantity exponentiation with a *nonzero* power contains no
atom of exponent `0`; `update_exp(0)` (and hence raising a quantity to the
power `0`) violates the invariant. -/
theorem claim_C7_amended_no_zero_exponents :
    (∀ l : List BaseUnit, NoZeroExp (mkKit l))
    ∧ (∀ A B : Units, NoZeroExp A → NoZeroExp B → NoZeroExp (Units.mul A B))
    ∧ (∀ A : Units, NoZeroExp A → NoZeroExp (Units.invert A))
    ∧ (∀ A B : Units, NoZeroExp A → NoZeroExp B → NoZeroExp (Units.div A B))
    ∧ (∀ (A : Units) (k : ℚ), k ≠ 0 → NoZeroExp A → NoZeroExp (Units.update_exp A k))
    ∧ (∀ A : Units, NoZeroExp (Units.simplify A))
    ∧ (∀ (A : Units) (tdb : BaseUnit → BaseUnit × ℚ) (cef : BaseUnit → Bool)
        (fef : BaseUnit → Units × ℚ), NoZeroExp (Units.expand_all A tdb cef fef).1)
    ∧ (∀ (a : Value) (k : ℤ), k ≠ 0 → NoZeroExp a.units →
        NoZeroExp (Value.pow a k).units) := by
  have hmul : ∀ A B : Units, NoZeroExp A → NoZeroExp B → NoZeroExp (Units.mul A B) := by
    intro A B hA hB u hu
    unfold Units.mul at hu
    rcases List.mem_append.mp hu with hu1 | hu2
    · rcases List.mem_filterMap.mp hu1 with ⟨v, hv, hfv⟩
      revert hfv
      split
      · split
        · intro hfv
          cases hfv
        · intro hfv
          injection hfv with hfv
          rw [← hfv]
          simpa using by assumption
      · intro hfv
        injection hfv with hfv
        rw [← hfv]
        exact hA v hv
    · exact hB u (List.mem_of_mem_filter hu2)
  have hinv : ∀ A : Units, NoZeroExp A → NoZeroExp (Units.invert A) := by
    intro A hA u hu
    unfold Units.invert at hu
    rcases List.mem_map.mp hu with ⟨v, hv, rfl⟩
    simpa using hA v hv
  have hupd : ∀ (A : Units) (k : ℚ), k ≠ 0 → NoZeroExp A →
      NoZeroExp (Units.update_exp A k) := by
    intro A k hk hA u hu
    unfold Units.update_exp at hu
    rcases List.mem_map.mp hu with ⟨v, hv, rfl⟩
    exact mul_ne_zero (hA v hv) hk
  refine ⟨noZero_mkKit, hmul, hinv, ?_, hupd, ?_, ?_, ?_⟩
  · intro A B hA hB
    exact hmul A (Units.invert B) hA (hinv B hB)
  · intro A
    exact noZero_mkKit _
  · intro A tdb cef fef
    exact noZero_mkKit _
  · intro a k hk ha
    exact hupd a.units (k : ℚ) (by exact_mod_cast hk) ha

theorem claim_C7_witness :
    NoZeroExp (mkKit [mA, kmA])
    ∧ NoZeroExp (Units.mul ⟨[mA]⟩ ⟨[sA]⟩)
    ∧ NoZeroExp (Units.update_exp ⟨[mA]⟩ 2)
    ∧ NoZeroExp (Value.pow ⟨2, ⟨[mA]⟩, 1⟩ 3).units :=
  ⟨claim_C7_amended_no_zero_exponents.1 [mA, kmA],
    claim_C7_amended_no_zero_exponents.2.1 ⟨[mA]⟩ ⟨[sA]⟩ (by decide) (by decide),
    claim_C7_amended_no_zero_exponents.2.2.2.2.1 ⟨[mA]⟩ 2 (by decide) (by decide),
    claim_C7_amended_no_zero_exponents.2.2.2.2.2.2.2 ⟨2, ⟨[mA]⟩, 1⟩ 3 (by decide)
      (by decide)⟩

theorem div_singleton_symbols {a b : BaseUnit}
    (h : (Units.div ⟨[b]⟩ (⟨[a]⟩ : Units)).base_units = []) : a.symbol = b.symbol := by
  by_contra hne
  have hfalse : (a.symbol == b.symbol) = false := beq_eq_false_iff_ne.mpr hne
  unfold Units.div Units.mul Units.invert firstMatch at h
  simp [List.find?, hfalse] at h

/-- C2, counterexample: in the older module (`src/units/main.py` line 233),
when the unit ratio is unitless the returned quantity keeps the *original*
units object, not the target: converting `Value(5, m·s)` to the target
expression written `s·m` keeps `m·s`, although the claim demands the target
units. -/
theorem claim_C2_counterexample :
    convert_units_old ⟨5, ⟨[mA, sA]⟩, 2⟩ ⟨[sA, mA]⟩ none modOne
      = .ok ⟨5, ⟨[mA, sA]⟩, 2⟩
    ∧ (⟨[mA, sA]⟩ : Units) ≠ ⟨[sA, mA]⟩ := by
  with_unfolding_all decide

/-- C2, amended: when the ratio `T / q.units` is unitless, both
implementations return the numeric value and sigfigs unchanged, but only
unitkit re-tags the result with the target units `T`
(`src/unitkit/main.py` line 286); the older module returns the quantity
with its original units (`src/units/main.py` line 233). -/
theorem claim_C2_amended_unitless_ratio (q : Value) (T : Units) (mods : BaseUnit → ℚ)
    (hr : (Units.div T q.units).base_units = []) :
    convert_units_kit q T none mods = .ok ⟨q.value, T, q.sigfigs⟩
    ∧ convert_units_old q T none mods = .ok ⟨q.value, q.units, q.sigfigs⟩ := by
  have hul : (Units.div T q.units).is_unitless = true := by
    unfold Units.is_unitless
    rw [hr]
    rfl
  constructor
  · cases htemp : is_temperature_conversion q.units T with
    | false =>
      rw [convert_kit_eq_main _ _ _ _ htemp]
      unfold convert_units_kit_main
      dsimp only
      rw [if_pos hul]
    | true =>
      unfold is_temperature_conversion at htemp
      split at htemp
      next a b h1 h2 =>
        simp only [Bool.and_eq_true, beq_iff_eq, decide_eq_true_eq] at htemp
        have e1 : q.units = (⟨[a]⟩ : Units) := by rw [← h1]
        have e2 : T = (⟨[b]⟩ : Units) := by rw [← h2]
        rw [e1, e2] at hr
        have hsym : a.symbol = b.symbol := div_singleton_symbols hr
        rw [convert_kit_temp q a b T none mods h1 h2 htemp.1.1.1 htemp.1.1.2
          htemp.1.2 htemp.2]
        rw [tempConvert, if_pos hsym]
      next => cases htemp
  · unfold convert_units_old
    dsimp only
    rw [if_pos hul]

theorem claim_C2_witness :
    convert_units_kit ⟨7, ⟨[mA, sA]⟩, 3⟩ ⟨[sA, mA]⟩ none modOne = .ok ⟨7, ⟨[sA, mA]⟩, 3⟩
    ∧ convert_units_old ⟨7, ⟨[mA, sA]⟩, 3⟩ ⟨[sA, mA]⟩ none modOne
        = .ok ⟨7, ⟨[mA, sA]⟩, 3⟩ :=
  claim_C2_amended_unitless_ratio ⟨7, ⟨[mA, sA]⟩, 3⟩ ⟨[sA, mA]⟩ modOne
    (by with_unfolding_all decide)

/-- C1, counterexample: the left operand `Value(5, "m")` carries a real
(non-cancelling) dimension, so per the claim a bare number should be coerced
to a *unitless* quantity; the code does the opposite — the coerced input
carries the left operand's units `m` and the units-assumption warning
fires (`src/unitkit/main.py` lines 152-158). -/
theorem claim_C1_counterexample :
    (ensure_value_num ⟨5, ⟨[mA]⟩, 1⟩ ⟨3, ['3', '.', '0']⟩).1.units ≠ unitless
    ∧ (ensure_value_num ⟨5, ⟨[mA]⟩, 1⟩ ⟨3, ['3', '.', '0']⟩).2 = true := by
  with_unfolding_all decide

/-- C1, amended: the coercion policy is the mirror image of the claim — a
bare number is coerced to a quantity *sharing the left operand's units*,
with a warning, when the left operand carries real (non-cancelling)
dimensions, and to a *unitless* quantity (no warning) when the left
operand's units are convertible to unitless (in particular when the left
operand is unitless); shown here through the decorated `__add__`. -/
theorem claim_C1_amended_coercion (self : Value) (x : PyNum) (mods : BaseUnit → ℚ)
    (hsym : List.Pairwise (fun u v => u.symbol ≠ v.symbol) self.units.base_units) :
    (can_convert self.units = false →
      Value.addNum self x mods
        = (.ok ⟨self.value + x.val, self.units, min self.sigfigs (count_sigfigs x.pyStr)⟩,
            true))
    ∧ (self.units.base_units = [] →
      Value.addNum self x mods
        = (.ok ⟨self.value + x.val, self.units, min self.sigfigs (count_sigfigs x.pyStr)⟩,
            false)) := by
  constructor
  · intro hcc
    unfold Value.addNum ensure_value_num
    rw [hcc]
    simp only [Bool.false_eq_true, if_false]
    unfold Value.add
    have hb := convert_kit_self ⟨x.val, self.units, count_sigfigs x.pyStr⟩ none mods hsym
    rw [hb]
  · intro hunit
    obtain ⟨sval, ⟨sl⟩, ssig⟩ := self
    simp only at hunit hsym
    subst hunit
    unfold Value.addNum ensure_value_num
    rw [if_pos (by rfl)]
    unfold Value.add
    have hb := convert_kit_self ⟨x.val, ⟨[]⟩, count_sigfigs x.pyStr⟩ none mods
      List.Pairwise.nil
    dsimp only at hb ⊢
    simp only [unitless]
    rw [hb]

theorem claim_C1_witness :
    Value.addNum ⟨5, ⟨[mA]⟩, 1⟩ ⟨3, ['3', '.', '0']⟩ modOne
      = (.ok ⟨8, ⟨[mA]⟩, 1⟩, true) := by
  have h := (claim_C1_amended_coercion ⟨5, ⟨[mA]⟩, 1⟩ ⟨3, ['3', '.', '0']⟩ modOne
    (by decide)).1 (by with_unfolding_all decide)
  rw [h]
  with_unfolding_all decide

/-- C4, counterexample: in the older module (`src/units/main.py`) there is
no affine path at all — `Value(0, "°C").convert_units("°F")` goes through
the multiplicative factor and yields numeric value `0`, not `32`. -/
theorem claim_C4_counterexample :
    convert_units_old ⟨0, ⟨[degC]⟩, 1⟩ ⟨[degF]⟩ none modOne = .ok ⟨0, ⟨[degF]⟩, 1⟩
    ∧ (0 : ℚ) ≠ 32 := by
  with_unfolding_all decide

/-- C4, amended: in unitkit, a conversion between two temperature units
(single first-power temperature atoms on both sides) applies the direct
affine transform selected by the (source-symbol, target-symbol) pair and
bypasses the multiplicative computation entirely — the result does not
depend on the magnitude table `mods` at all; in the older `units` module
there is no affine path, and converting `Value(0, "°C")` to `"°F"` returns
numeric value `0` (`0 ·` factor) for every magnitude table, not `32`. -/
theorem claim_C4_amended_affine_path :
    (∀ (v : Value) (a b : BaseUnit) (T : Units) (mw : Option Value)
        (mods : BaseUnit → ℚ),
      v.units.base_units = [a] → T.base_units = [b] →
      a.dimension = "temperature" → b.dimension = "temperature" →
      a.exp = 1 → b.exp = 1 →
      convert_units_kit v T mw mods
        = .ok ⟨tempConvert a.symbol b.symbol v.value, T, v.sigfigs⟩)
    ∧ ∀ mods : BaseUnit → ℚ,
        Except.map (fun r => r.value)
            (convert_units_old ⟨0, ⟨[degC]⟩, 1⟩ ⟨[degF]⟩ none mods)
          = .ok 0 := by
  constructor
  · intro v a b T mw mods hv hT ha hb hea heb
    exact convert_kit_temp v a b T mw mods hv hT ha hb hea heb
  · intro mods
    unfold convert_units_old
    dsimp only
    have hratio : Units.div (⟨[degF]⟩ : Units) (⟨[degC]⟩ : Units)
        = ⟨[degF, ⟨"°C", "temperature", -1⟩]⟩ := by
      with_unfolding_all decide
    rw [hratio]
    rw [if_neg (by with_unfolding_all decide)]
    have hres : resolve_bridge ⟨[degF, ⟨"°C", "temperature", -1⟩]⟩ (⟨[degC]⟩ : Units)
        (⟨[degF]⟩ : Units) none = .ok (none, false) := by
      unfold resolve_bridge
      rw [if_pos (by with_unfolding_all decide)]
    rw [hres]
    simp [Value.mulVV, Except.map]

theorem claim_C4_witness :
    convert_units_kit ⟨0, ⟨[degC]⟩, 1⟩ ⟨[degF]⟩ none modOne = .ok ⟨32, ⟨[degF]⟩, 1⟩ := by
  have h := claim_C4_amended_affine_path.1 ⟨0, ⟨[degC]⟩, 1⟩ degC degF ⟨[degF]⟩ none modOne
    rfl rfl rfl rfl rfl rfl
  rw [h]
  with_unfolding_all decide

/-- C5, counterexample: `0.2 * Value(3.123, "m")` goes through
`Value.__rmul__`, which keeps the receiver's sigfig count `4`
(`count_sigfigs` of `3.123`), although the bare operand `0.2` counts only
one significant figure — the result's sigfigs exceed the minimum of the two
operands' counts. -/
theorem claim_C5_counterexample :
    (Value.rmulNum ⟨1 / 5, ['0', '.', '2']⟩ ⟨3123 / 1000, ⟨[mA]⟩, 4⟩).sigfigs = 4
    ∧ ¬ ((Value.rmulNum ⟨1 / 5, ['0', '.', '2']⟩ ⟨3123 / 1000, ⟨[mA]⟩, 4⟩).sigfigs
        ≤ min (count_sigfigs ['0', '.', '2'])
            (⟨3123 / 1000, ⟨[mA]⟩, 4⟩ : Value).sigfigs) := by
  with_unfolding_all decide

/-- C5, amended: between two `Value` operands, every binary arithmetic
operation (add, subtract, multiply, divide) that returns a result gives it
at most the minimum of the operands' sigfig counts; the bare-number paths of
multiply/divide and the reflected variants instead keep the receiver's
sigfig count even when the bare number carries fewer significant figures. -/
theorem claim_C5_amended_sigfigs_min (a b : Value) (mods : BaseUnit → ℚ) :
    (∀ r, Value.add a b mods = .ok r → r.sigfigs ≤ min a.sigfigs b.sigfigs)
    ∧ (∀ r, Value.sub a b mods = .ok r → r.sigfigs ≤ min a.sigfigs b.sigfigs)
    ∧ (Value.mulVV a b).sigfigs ≤ min a.sigfigs b.sigfigs
    ∧ (∀ r, Value.divVV a b = .ok r → r.sigfigs ≤ min a.sigfigs b.sigfigs) := by
  refine ⟨?_, ?_, le_refl _, ?_⟩
  · intro r hr
    unfold Value.add at hr
    split at hr
    · cases hr
    next b2 hconv =>
      injection hr with hr
      rw [← hr]
      have := convert_kit_ok_sigfigs b a.units none mods b2 hconv
      simp [this]
  · intro r hr
    unfold Value.sub at hr
    split at hr
    · cases hr
    next b2 hconv =>
      injection hr with hr
      rw [← hr]
      have := convert_kit_ok_sigfigs b a.units none mods b2 hconv
      simp [this]
  · intro r hr
    unfold Value.divVV at hr
    split at hr
    · cases hr
    · injection hr with hr
      rw [← hr]

/-- C3, counterexample: converting `Value(1, "g")` to `"mol"` with a
*supplied* bridge quantity `Value(0, "g/mol")` still raises (a
`ZeroDivisionError` from `1 / mw` on the multiplying-bridge path), so
"raises an error if and only if no bridge quantity is supplied" fails: an
error is raised although the bridge was supplied. -/
theorem claim_C3_counterexample :
    convert_units_kit ⟨1, ⟨[gA]⟩, 1⟩ ⟨[molA]⟩ (some ⟨0, gPerMol, 1⟩) modOne
      = .error PyErr.zeroDivision
    ∧ (some (⟨0, gPerMol, 1⟩ : Value)).isSome = true := by
  with_unfolding_all decide

/-- C3, amended: for a non-temperature conversion whose unit ratio is not
directly convertible to unitless, (1) when the ratio becomes convertible by
multiplying or dividing by `g/mol`, the missing-molecular-weight error is
raised if and only if no bridge quantity is supplied; (2) a supplied bridge
quantity with nonzero numeric value makes the conversion return normally (a
zero-valued bridge instead raises `ZeroDivisionError` on the multiplying
path); and (3) when the ratio is convertible neither directly nor with the
bridge, the error raised names both the source and the target unit
expressions. -/
theorem claim_C3_amended_bridge_errors (self : Value) (T : Units) (mw : Option Value)
    (mods : BaseUnit → ℚ)
    (htemp : is_temperature_conversion self.units T = false)
    (hnc : can_convert (Units.div T self.units) = false) :
    ((can_convert (Units.mul (Units.div T self.units) gPerMol) = true
        ∨ can_convert (Units.div (Units.div T self.units) gPerMol) = true) →
      (convert_units_kit self T mw mods = .error PyErr.missingMW ↔ mw = none))
    ∧ (∀ m : Value, mw = some m → m.value ≠ 0 →
        (can_convert (Units.mul (Units.div T self.units) gPerMol) = true
          ∨ can_convert (Units.div (Units.div T self.units) gPerMol) = true) →
        ∃ v, convert_units_kit self T mw mods = .ok v)
    ∧ (can_convert (Units.mul (Units.div T self.units) gPerMol) = false →
        can_convert (Units.div (Units.div T self.units) gPerMol) = false →
        convert_units_kit self T mw mods = .error (PyErr.cantConvert self.units T)) := by
  have hu : (Units.div T self.units).is_unitless = false :=
    is_unitless_false_of_can_convert_false hnc
  rw [convert_kit_eq_main _ _ _ _ htemp]
  refine ⟨?_, ?_, ?_⟩
  · intro hbr
    rw [convert_main_error_iff self T mw mods PyErr.missingMW hu]
    constructor
    · intro herr
      cases mw with
      | none => rfl
      | some m =>
        exfalso
        cases hmu : can_convert (Units.mul (Units.div T self.units) gPerMol) with
        | true =>
          rw [resolve_bridge_mul_some _ _ _ _ hnc hmu] at herr
          by_cases hm0 : m.value = 0
          · rw [if_pos hm0] at herr
            cases herr
          · rw [if_neg hm0] at herr
            cases herr
        | false =>
          rcases hbr with hbr1 | hbr2
          · rw [hbr1] at hmu
            cases hmu
          · rw [resolve_bridge_div_some _ _ _ m hnc hmu hbr2] at herr
            cases herr
    · intro hmw
      subst hmw
      cases hmu : can_convert (Units.mul (Units.div T self.units) gPerMol) with
      | true => exact resolve_bridge_mul_none _ _ _ hnc hmu
      | false =>
        rcases hbr with hbr1 | hbr2
        · rw [hbr1] at hmu
          cases hmu
        · exact resolve_bridge_div_none _ _ _ hnc hmu hbr2
  · intro m hmw hm0 hbr
    subst hmw
    cases hmu : can_convert (Units.mul (Units.div T self.units) gPerMol) with
    | true =>
      have hres := resolve_bridge_mul_some (Units.div T self.units) self.units T m hnc hmu
      rw [if_neg hm0] at hres
      exact convert_main_ok_of_resolve self T (some m) mods _ hu hres
    | false =>
      rcases hbr with hbr1 | hbr2
      · rw [hbr1] at hmu
        cases hmu
      · exact convert_main_ok_of_resolve self T (some m) mods _ hu
          (resolve_bridge_div_some _ _ _ m hnc hmu hbr2)
  · intro hmu hdv
    rw [convert_main_error_iff self T mw mods _ hu]
    exact resolve_bridge_incompatible _ _ _ mw hnc hmu hdv

theorem claim_C3_witness :
    convert_units_kit ⟨1, ⟨[gA]⟩, 1⟩ ⟨[molA]⟩ none modOne = .error PyErr.missingMW
    ∧ (∃ v, convert_units_kit ⟨1, ⟨[gA]⟩, 1⟩ ⟨[molA]⟩ (some ⟨18, gPerMol, 2⟩) modOne
        = Except.ok v)
    ∧ convert_units_kit ⟨1, ⟨[gA]⟩, 1⟩ ⟨[ftA]⟩ none modOne
        = .error (PyErr.cantConvert ⟨[gA]⟩ ⟨[ftA]⟩) :=
  ⟨((claim_C3_amended_bridge_errors ⟨1, ⟨[gA]⟩, 1⟩ ⟨[molA]⟩ none modOne
        (by decide) (by with_unfolding_all decide)).1
      (Or.inl (by with_unfolding_all decide))).mpr rfl,
    (claim_C3_amended_bridge_errors ⟨1, ⟨[gA]⟩, 1⟩ ⟨[molA]⟩ (some ⟨18, gPerMol, 2⟩) modOne
        (by decide) (by with_unfolding_all decide)).2.1 ⟨18, gPerMol, 2⟩ rfl
      (by with_unfolding_all decide) (Or.inl (by with_unfolding_all decide)),
    (claim_C3_amended_bridge_errors ⟨1, ⟨[gA]⟩, 1⟩ ⟨[ftA]⟩ none modOne
        (by decide) (by with_unfolding_all decide)).2.2
      (by with_unfolding_all decide) (by with_unfolding_all decide)⟩

theorem claim_C5_witness :
    (⟨3, ⟨[mA]⟩, 2⟩ : Value).sigfigs ≤ min 2 5
    ∧ (Value.mulVV ⟨2, ⟨[mA]⟩, 2⟩ ⟨3, ⟨[sA]⟩, 1⟩).sigfigs
        ≤ min (⟨2, ⟨[mA]⟩, 2⟩ : Value).sigfigs (⟨3, ⟨[sA]⟩, 1⟩ : Value).sigfigs :=
  ⟨(claim_C5_amended_sigfigs_min ⟨1, ⟨[mA]⟩, 2⟩ ⟨2, ⟨[mA]⟩, 5⟩ modOne).1 ⟨3, ⟨[mA]⟩, 2⟩
      (by with_unfolding_all decide),
    (claim_C5_amended_sigfigs_min ⟨2, ⟨[mA]⟩, 2⟩ ⟨3, ⟨[sA]⟩, 1⟩ modOne).2.2.1⟩

/-! ### Lemmas about `simplify` on expressions with pairwise-distinct
dimensions (no cancellation fires at all) -/

theorem can_convert_pair_false {u r : BaseUnit} (hne : u.dimension ≠ r.dimension)
    (hu : u.exp ≠ 0) : can_convert ⟨[u, r]⟩ = false := by
  have hrb : (r.dimension == u.dimension) = false := beq_eq_false_iff_ne.mpr (Ne.symm hne)
  have h1 : dimExpSum [u, r] u.dimension = u.exp := by
    unfold dimExpSum
    simp [List.filter, hrb]
  unfold can_convert
  simp [h1, hu]

theorem cc2mul_false {u r : BaseUnit} (hne : u.dimension ≠ r.dimension)
    (hu : u.exp ≠ 0) : cc2mul u r = false :=
  can_convert_pair_false hne hu

theorem cc2div_false {u r : BaseUnit} (hne : u.dimension ≠ r.dimension)
    (hu : u.exp ≠ 0) : cc2div u r = false :=
  can_convert_pair_false hne hu

theorem scanSim_no_cancel (orig : List BaseUnit) (i : Nat) (passed rem : List Nat)
    (store : List ℚ)
    (h : ∀ j ∈ rem, cc2mul (buAt orig store i) (buAt orig store j) = false
        ∧ cc2div (buAt orig store i) (buAt orig store j) = false) :
    scanSim orig i passed rem store = (passed ++ rem, store, false) := by
  induction rem generalizing passed with
  | nil => simp [scanSim]
  | cons j rs ih =>
    unfold scanSim
    dsimp only
    rw [(h j (List.mem_cons_self j rs)).1]
    simp only [Bool.false_eq_true, if_false]
    rw [(h j (List.mem_cons_self j rs)).2]
    simp only [Bool.false_eq_true, if_false]
    rw [ih (passed ++ [j]) (fun k hk => h k (List.mem_cons_of_mem j hk))]
    simp

theorem simplifySim_no_cancel (orig : List BaseUnit) (rem keep : List Nat)
    (store : List ℚ) (hnodup : rem.Nodup)
    (h : ∀ i ∈ rem, ∀ j ∈ rem, i ≠ j →
        cc2mul (buAt orig store i) (buAt orig store j) = false
        ∧ cc2div (buAt orig store i) (buAt orig store j) = false) :
    simplifySim orig rem keep store = (keep ++ rem, store) := by
  induction rem generalizing keep with
  | nil => simp [simplifySim]
  | cons i rs ih =>
    have hi_not_rs : i ∉ rs := (List.nodup_cons.mp hnodup).1
    have hscan := scanSim_no_cancel orig i [] rs store (fun j hj =>
      h i (List.mem_cons_self i rs) j (List.mem_cons_of_mem i hj)
        (fun he => hi_not_rs (he ▸ hj)))
    rw [simplifySim]
    simp only [hscan, List.nil_append, Bool.false_eq_true, if_false]
    rw [ih (keep ++ [i]) (List.nodup_cons.mp hnodup).2 (fun a ha b hb hab =>
      h a (List.mem_cons_of_mem i ha) b (List.mem_cons_of_mem i hb) hab)]
    simp

theorem buAt_init (l : List BaseUnit) (i : Nat) (hi : i < l.length) :
    buAt l (l.map (fun u => u.exp)) i = l.getD i default := by
  unfold buAt
  have h1 : (l.map (fun u => u.exp)).getD i 0 = (l.getD i default).exp := by
    rw [List.getD_eq_getElem?_getD, List.getD_eq_getElem?_getD, List.getElem?_map,
      List.getElem?_eq_getElem hi]
    rfl
  rw [h1]

theorem map_getD_range {α : Type} (d : α) (l : List α) :
    (List.range l.length).map (fun i => l.getD i d) = l := by
  induction l with
  | nil => rfl
  | cons a t ih =>
    rw [List.length_cons, List.range_succ_eq_map, List.map_cons, List.map_map]
    have h2 : ((fun i => (a :: t).getD i d) ∘ Nat.succ) = fun i => t.getD i d := by
      funext i
      rfl
    rw [h2, ih]
    rfl

theorem simplifyRun_distinct (A : Units)
    (hdim : List.Pairwise (fun u v => u.dimension ≠ v.dimension) A.base_units)
    (hnz : NoZeroExp A) :
    simplifyRun A
      = (List.range A.base_units.length, A.base_units.map (fun u => u.exp)) := by
  unfold simplifyRun
  apply simplifySim_no_cancel
  · exact List.nodup_range _
  · intro i hi j hj hij
    rw [List.mem_range] at hi hj
    rw [buAt_init _ _ hi, buAt_init _ _ hj]
    rw [List.getD_eq_getElem _ _ hi, List.getD_eq_getElem _ _ hj]
    have hpw := List.pairwise_iff_getElem.mp hdim
    have hne : (A.base_units[i]).dimension ≠ (A.base_units[j]).dimension := by
      rcases Nat.lt_or_ge i j with hij2 | hij2
      · exact hpw i j hi hj hij2
      · exact (hpw j i hj hi (Nat.lt_of_le_of_ne hij2 (fun he => hij he.symm))).symm
    have hu : (A.base_units[i]).exp ≠ 0 := hnz _ (A.base_units.getElem_mem hi)
    exact ⟨cc2mul_false hne hu, cc2div_false hne hu⟩

theorem applyStore_self (l : List BaseUnit) :
    applyStore l (l.map (fun u => u.exp)) = l := by
  induction l with
  | nil => rfl
  | cons u t ih =>
    simp only [List.map_cons, applyStore, ih]

theorem mergeSym_no_match (c : BaseUnit) (l : List BaseUnit)
    (h : ∀ r ∈ l, r.symbol ≠ c.symbol) : mergeSym c l = (some c, l) := by
  induction l with
  | nil => rfl
  | cons r rs ih =>
    unfold mergeSym
    have hb : (r.symbol == c.symbol) = false :=
      beq_eq_false_iff_ne.mpr (h r (List.mem_cons_self r rs))
    rw [hb]
    simp only [Bool.false_eq_true, if_false]
    rw [ih (fun a ha => h a (List.mem_cons_of_mem r ha))]

theorem combineAux_distinct (l : List BaseUnit)
    (hsym : List.Pairwise (fun u v => u.symbol ≠ v.symbol) l)
    (hnz : ∀ u ∈ l, u.exp ≠ 0) :
    ∀ acc, combineAux l acc = acc ++ l.reverse := by
  induction l using List.reverseRecOn with
  | nil =>
    intro acc
    rw [combineAux]
    simp
  | append_singleton xs x ih =>
    intro acc
    rw [combineAux]
    have hlast : (xs ++ [x]).getLast? = some x := by simp
    split
    next hnone => rw [hlast] at hnone; cases hnone
    next current hsome =>
      rw [hlast] at hsome
      injection hsome with hsome
      subst hsome
      rw [List.dropLast_concat]
      have hmerge : mergeSym x xs = (some x, xs) := by
        apply mergeSym_no_match
        intro r hr
        have hpa := List.pairwise_append.mp hsym
        exact hpa.2.2 r hr x (List.mem_singleton_self x)
      simp only [hmerge]
      rw [if_neg (hnz x (List.mem_append_right xs (List.mem_singleton_self x)))]
      rw [ih (List.pairwise_append.mp hsym).1
        (fun u hu => hnz u (List.mem_append_left [x] hu)) (acc ++ [x])]
      rw [List.reverse_append]
      simp

theorem simplify_distinct (A : Units)
    (hdim : List.Pairwise (fun u v => u.dimension ≠ v.dimension) A.base_units)
    (hsymb : List.Pairwise (fun u v => u.symbol ≠ v.symbol) A.base_units)
    (hnz : NoZeroExp A) :
    Units.simplify A = ⟨A.base_units.reverse⟩ := by
  unfold Units.simplify
  rw [simplifyRun_distinct A hdim hnz]
  dsimp only
  have hmap : (List.range A.base_units.length).map
      (buAt A.base_units (A.base_units.map (fun u => u.exp))) = A.base_units := by
    have h1 : ∀ i ∈ List.range A.base_units.length,
        buAt A.base_units (A.base_units.map (fun u => u.exp)) i
          = A.base_units.getD i default := by
      intro i hi
      exact buAt_init _ _ (List.mem_range.mp hi)
    rw [List.map_congr_left h1]
    exact map_getD_range default A.base_units
  rw [hmap]
  unfold mkKit
  rw [combineAux_distinct A.base_units hsymb hnz []]
  rw [List.nil_append]
  unfold stripZeros
  rw [List.filter_eq_self.mpr]
  intro u hu
  simp [hnz u (List.mem_reverse.mp hu)]

theorem expOf_reverse (l : List BaseUnit) (s : String) :
    expOf ⟨l.reverse⟩ s = expOf ⟨l⟩ s := by
  unfold expOf
  rw [List.filter_reverse, List.map_reverse, List.sum_reverse]

/-- C6, counterexample: `Units.simplify` begins with a *shallow* copy of the
receiver's atom list, so the in-place `u.exp += other.exp` of the
partial-cancellation branch mutates an atom the receiver still holds:
after calling `simplify` on `m·km` (both length), the receiver reads
`m²·km`. -/
theorem claim_C6_counterexample :
    receiverAfterSimplify ⟨[mA, kmA]⟩ = ⟨[⟨"m", "length", 2⟩, kmA]⟩
    ∧ receiverAfterSimplify ⟨[mA, kmA]⟩ ≠ ⟨[mA, kmA]⟩ := by
  with_unfolding_all decide

/-- C6, amended: operations other than `simplify` deep-copy before mutating,
but `simplify` shares its working atoms with the receiver and its
partial-cancellation branch mutates them in place (the older module's
`update_exp` likewise mutates the receiver directly); when no two atoms of
the receiver share a dimension — so no cancellation branch ever fires — the
receiver is left unchanged. -/
theorem claim_C6_amended_receiver_unchanged (A : Units)
    (hdim : List.Pairwise (fun u v => u.dimension ≠ v.dimension) A.base_units)
    (hnz : NoZeroExp A) :
    receiverAfterSimplify A = A := by
  unfold receiverAfterSimplify
  rw [simplifyRun_distinct A hdim hnz]
  dsimp only
  rw [applyStore_self]

theorem claim_C6_witness :
    receiverAfterSimplify ⟨[mA, sA]⟩ = ⟨[mA, sA]⟩ :=
  claim_C6_amended_receiver_unchanged ⟨[mA, sA]⟩ (by decide) (by decide)

/-- C9, counterexample: `simplify` is not idempotent.  For
`A = in²·ft·m` (three length atoms), the first pass keeps `in²` and folds
`m` into `ft` (giving `ft²·in²` after the constructor's order reversal),
and a second pass then folds `in²` into `ft²` (giving `ft⁴`): the
symbol-to-exponent mapping changes (`in` drops from exponent 2 to 0). -/
theorem claim_C9_counterexample :
    expOf (Units.simplify (Units.simplify ⟨[inA, ftA, mA]⟩)) "in"
      ≠ expOf (Units.simplify ⟨[inA, ftA, mA]⟩) "in" := by
  with_unfolding_all decide

/-- C9, amended: `simplify` is idempotent on unit expressions whose atoms
have pairwise distinct dimensions (and symbols, all exponents nonzero):
there the scan cancels nothing and a second application yields the same
symbol-to-exponent mapping.  With three or more same-dimension atoms a
second application can cancel further (see the counterexample). -/
theorem claim_C9_amended_idempotent_distinct (A : Units)
    (hdim : List.Pairwise (fun u v => u.dimension ≠ v.dimension) A.base_units)
    (hsymb : List.Pairwise (fun u v => u.symbol ≠ v.symbol) A.base_units)
    (hnz : NoZeroExp A) :
    ∀ s, expOf (Units.simplify (Units.simplify A)) s = expOf (Units.simplify A) s := by
  have h1 := simplify_distinct A hdim hsymb hnz
  have hd2 : List.Pairwise (fun u v => u.dimension ≠ v.dimension)
      (⟨A.base_units.reverse⟩ : Units).base_units := by
    dsimp only
    rw [List.pairwise_reverse]
    exact hdim.imp fun h => h.symm
  have hs2 : List.Pairwise (fun u v => u.symbol ≠ v.symbol)
      (⟨A.base_units.reverse⟩ : Units).base_units := by
    dsimp only
    rw [List.pairwise_reverse]
    exact hsymb.imp fun h => h.symm
  have hnz2 : NoZeroExp ⟨A.base_units.reverse⟩ := by
    intro u hu
    exact hnz u (List.mem_reverse.mp hu)
  have h2 := simplify_distinct ⟨A.base_units.reverse⟩ hd2 hs2 hnz2
  intro s
  rw [h1, h2]
  dsimp only
  rw [List.reverse_reverse]
  exact (expOf_reverse A.base_units s).symm

theorem claim_C9_witness :
    List.Pairwise (fun u v => u.dimension ≠ v.dimension) ([mA, sA] : List BaseUnit)
    ∧ expOf (Units.simplify (Units.simplify ⟨[mA, sA]⟩)) "m"
        = expOf (Units.simplify ⟨[mA, sA]⟩) "m" :=
  ⟨by decide,
    claim_C9_amended_idempotent_distinct ⟨[mA, sA]⟩ (by decide) (by decide) (by decide) "m"⟩

end UnitAlg
